import Mathlib

/-!
Verification development for the fancy-lists Markdown extension
(`fancylists.go`).

Source lines are byte sequences, modelled as `List Nat` (each entry one
byte value).  Pure helper functions of the Go source are translated one
by one; the stateful block-parser callbacks (`Open`, `Continue`) are
translated as functions of an explicit context record holding exactly
the pieces of host-engine state the Go code reads.
-/

namespace FancyLists

/-- goldmark `util.IsSpace`: space, newline, tab, vertical tab, form feed,
carriage return. -/
def isSpaceByte (c : Nat) : Bool :=
  c == 32 || c == 10 || c == 9 || c == 11 || c == 12 || c == 13

/-- goldmark `util.IsBlank`: every byte of the line is a space byte. -/
def isBlank (line : List Nat) : Bool :=
  line.all isSpaceByte

/-- goldmark `util.IsNumeric`: ASCII digit. -/
def isNumericByte (c : Nat) : Bool :=
  48 ≤ c && c ≤ 57

/-- Go `unicode.IsLetter(rune(b))` for a byte `b` (values 0..255): the ASCII
letters plus the Latin-1 letters `ª µ º À-Ö Ø-ö ø-ÿ` (a byte cast to a rune
yields the Latin-1 code point). -/
def isGoLetterByte (c : Nat) : Bool :=
  (65 ≤ c && c ≤ 90) || (97 ≤ c && c ≤ 122) || c == 0xAA || c == 0xB5 || c == 0xBA ||
    (0xC0 ≤ c && c ≤ 0xD6) || (0xD8 ≤ c && c ≤ 0xF6) || (0xF8 ≤ c && c ≤ 0xFF)

/-- Go `unicode.IsLower(rune(b))` for a byte `b`: category Ll among the
Latin-1 code points: `a-z`, `µ`, `ß-ö`, `ø-ÿ`. -/
def isLowerByte (c : Nat) : Bool :=
  (97 ≤ c && c ≤ 122) || c == 0xB5 || (0xDF ≤ c && c ≤ 0xF6) || (0xF8 ≤ c && c ≤ 0xFF)

/-- Byte-wise ASCII lower-casing.  `strings.ToLower` agrees with mapping this
over the bytes whenever the input is ASCII (the only marker alphabet in
scope); on non-ASCII bytes both sides produce a byte outside `a-z`/the roman
digit set, so every use below is extensionally faithful on its domain. -/
def asciiLower (c : Nat) : Nat :=
  if 65 ≤ c ∧ c ≤ 90 then c + 32 else c

/-- Byte-wise ASCII upper-casing (see `asciiLower` for the faithfulness
note about `strings.ToUpper`). -/
def asciiUpper (c : Nat) : Nat :=
  if 97 ≤ c ∧ c ≤ 122 then c - 32 else c

/-- A token is an ASCII letter byte. -/
def isAsciiLetter (c : Nat) : Bool :=
  (65 ≤ c && c ≤ 90) || (97 ≤ c && c ≤ 122)

/-- goldmark `util.TabWidth`. -/
def tabWidth (currentPos : Nat) : Nat :=
  4 - currentPos % 4

/-- Loop of goldmark `util.IndentWidth`: accumulate width over leading
spaces/tabs, a tab advancing to the next tab stop relative to
`currentPos`. Returns `(width, pos)`. -/
def indentWidthAux : List Nat → Nat → Nat → Nat → Nat × Nat
  | [], _, w, p => (w, p)
  | b :: rest, cur, w, p =>
    if b = 32 then indentWidthAux rest cur (w + 1) (p + 1)
    else if b = 9 then indentWidthAux rest cur (w + tabWidth (cur + w)) (p + 1)
    else (w, p)

/-- goldmark `util.IndentWidth`. -/
def indentWidth (bs : List Nat) (currentPos : Nat) : Nat × Nat :=
  indentWidthAux bs currentPos 0 0

/-- Go slice `line[a:b]` for the (always in-range) index expressions of the
source, with `Int` indices as produced by the match array. -/
def sliceBytes (line : List Nat) (a b : Int) : List Nat :=
  (line.take b.toNat).drop a.toNat

/-- `pow` of the source: integer power by repeated multiplication. -/
def pow (base : Nat) : Nat → Nat
  | 0 => 1
  | e + 1 => base * pow base e

/-- `alphabeticToNumber` of the source.  The Go loop lower-cases the string,
walks it left to right, returns 0 as soon as a character outside `a-z` is
seen, and otherwise accumulates `digit * 26^(len-1-i)` (the last character's
digit is added directly, which equals multiplying by `26^0`).  The guarded
fold below is the same function: all characters valid ⇒ the accumulated sum,
otherwise 0.  (Go ranges over runes, but whenever a multi-byte or invalid
rune occurs the lower-cased character is outside `a-z` and both sides
return 0, so the byte-wise model agrees on every input.) -/
def alphabeticToNumber (s : List Nat) : Nat :=
  if s.length = 0 then 0
  else
    let t := s.map asciiLower
    if t.all (fun c => 97 ≤ c && c ≤ 122) then
      (List.range t.length).foldl
        (fun result i => result + (t.getD i 0 - 97 + 1) * pow 26 (t.length - 1 - i)) 0
    else 0

/-- Byte values of the seven roman digits, 0 for anything else. -/
def romanDigitValue (c : Nat) : Nat :=
  if c = 73 then 1 else if c = 86 then 5 else if c = 88 then 10
  else if c = 76 then 50 else if c = 67 then 100 else if c = 68 then 500
  else if c = 77 then 1000 else 0

/-- Right-to-left subtractive accumulation over a (reversed) roman string:
a digit at least as large as the running maximum is added, a smaller one is
subtracted; an unknown character aborts. -/
def romanParseLoop : List Nat → Int → Nat → Option Int
  | [], acc, _ => some acc
  | c :: rest, acc, curMax =>
    let v := romanDigitValue c
    if v = 0 then none
    else if curMax ≤ v then romanParseLoop rest (acc + v) v
    else romanParseLoop rest (acc - v) curMax

/-- Canonical roman spellings of the units digit (`I V X`). -/
def romanOnes : List (List Nat) :=
  [[], [73], [73, 73], [73, 73, 73], [73, 86], [86], [86, 73], [86, 73, 73],
    [86, 73, 73, 73], [73, 88]]

/-- Canonical roman spellings of the tens digit (`X L C`). -/
def romanTens : List (List Nat) :=
  [[], [88], [88, 88], [88, 88, 88], [88, 76], [76], [76, 88], [76, 88, 88],
    [76, 88, 88, 88], [88, 67]]

/-- Canonical roman spellings of the hundreds digit (`C D M`). -/
def romanHundreds : List (List Nat) :=
  [[], [67], [67, 67], [67, 67, 67], [67, 68], [68], [68, 67], [68, 67, 67],
    [68, 67, 67, 67], [67, 77]]

/-- The canonical (uppercase) roman numeral of `n`. -/
def intToRoman (n : Nat) : List Nat :=
  List.replicate (n / 1000) 77 ++ romanHundreds.getD (n / 100 % 10) [] ++
    romanTens.getD (n / 10 % 10) [] ++ romanOnes.getD (n % 10) []

/-- Modelled from the spec: the external decoding routine
`romannumeral.StringToInt` is a third-party dependency whose sources are not
part of this repository; the spec describes it as "normalize case and attempt
standard roman-numeral decoding; `None` if decoding fails".  We model the
standard strict decoder: the subtractive reading of the token, accepted only
when the token is the canonical roman numeral of its value and the value lies
in the representable range 1..3999. -/
def romannumeralStringToInt (s : List Nat) : Option Nat :=
  match romanParseLoop s.reverse 0 0 with
  | none => none
  | some v =>
    if 1 ≤ v ∧ v ≤ 3999 ∧ intToRoman v.toNat = s then some v.toNat else none

/-- `romanToNumber` of the source: empty token fails; a token whose
lower-cased first byte is not `i` fails; otherwise the upper-cased token is
handed to the roman decoder, failure mapping to `(0, false)`. -/
def romanToNumber (s : List Nat) : Nat × Bool :=
  if s.length = 0 then (0, false)
  else if asciiLower (s.getD 0 0) ≠ 105 then (0, false)
  else
    match romannumeralStringToInt (s.map asciiUpper) with
    | none => (0, false)
    | some n => (n, true)

/-- `listItemType` of the source. -/
inductive ListItemType
  | notList
  | bulletList
  | orderedList
  | orderedListFancy
  deriving DecidableEq

/-- The `[6]int` position array returned by `parseListItem`:
`[0, indentWidth, markerStart, markerEnd, contentStart, contentEnd]`
(the last two are `-1` when the line ends at the marker). -/
structure ListMatch where
  m0 : Int
  m1 : Int
  m2 : Int
  m3 : Int
  m4 : Int
  m5 : Int
  deriving DecidableEq

/-- Shared tail of `parseListItem` (everything after the marker has been
recognized, source lines 208-224): reject a marker glued to content without
an intervening space, record the content span, set the `-1` sentinels for a
content-less line, and trim a single trailing newline. -/
def finishScan (line : List Nat) (ret : ListMatch) (i : Nat) (typ : ListItemType) :
    ListMatch × ListItemType :=
  let l := line.length
  if i < l ∧ line.getD i 0 ≠ 10 ∧ (indentWidth (line.drop i) 0).1 = 0 then
    (ret, .notList)
  else if l ≤ i then
    ({ ret with m4 := -1, m5 := -1 }, typ)
  else
    let r5 : Nat := if line.getD (l - 1) 0 = 10 ∧ line.getD i 0 ≠ 10 then l - 1 else l
    ({ ret with m4 := (i : Int), m5 := (r5 : Int) }, typ)

/-- `parseListItem` of the source.  The leading loop counts leading spaces
(its inner tab test is unreachable: the loop guard already requires the
byte to equal `' '`); more than 3 leading spaces is not a list item.  Then,
in order: bullet markers, the `#` continuation marker, a run of at most 9
digits, a run of at most 6 letters — each of the last three requiring a
`.`/`)` terminator (a digit run longer than 9 falls into the letter branch,
where it matches no letter and the line is rejected). -/
def parseListItem (line : List Nat) : ListMatch × ListItemType :=
  let l := line.length
  let i0 := (line.takeWhile (fun c => c == 32)).length
  if 3 < i0 then (⟨0, 0, 0, 0, 0, 0⟩, .notList)
  else
    let base : ListMatch := ⟨0, (i0 : Int), (i0 : Int), 0, 0, 0⟩
    if i0 < l ∧ (line.getD i0 0 = 45 ∨ line.getD i0 0 = 42 ∨ line.getD i0 0 = 43) then
      finishScan line { base with m3 := (i0 : Int) + 1 } (i0 + 1) .bulletList
    else if i0 < l then
      if line.getD i0 0 = 35 then
        if i0 + 1 < l ∧ (line.getD (i0 + 1) 0 = 46 ∨ line.getD (i0 + 1) 0 = 41) then
          finishScan line { base with m3 := (i0 : Int) + 2 } (i0 + 2) .orderedListFancy
        else ({ base with m3 := (i0 : Int) + 1 }, .notList)
      else
        let nd := ((line.drop i0).takeWhile isNumericByte).length
        if 0 < nd ∧ nd ≤ 9 then
          if i0 + nd < l ∧ (line.getD (i0 + nd) 0 = 46 ∨ line.getD (i0 + nd) 0 = 41) then
            finishScan line { base with m3 := (i0 : Int) + nd + 1 } (i0 + nd + 1) .orderedList
          else ({ base with m3 := (i0 : Int) + nd }, .notList)
        else
          let na := min ((line.drop i0).takeWhile isGoLetterByte).length 6
          if 0 < na then
            if i0 + na < l ∧ (line.getD (i0 + na) 0 = 46 ∨ line.getD (i0 + na) 0 = 41) then
              finishScan line { base with m3 := (i0 : Int) + na + 1 } (i0 + na + 1)
                .orderedListFancy
            else ({ base with m3 := (i0 : Int) + na }, .notList)
          else (base, .notList)
    else (base, .notList)

/-- `matchesListItem` of the source: wrap `parseListItem`, and in strict mode
additionally require fewer than 4 leading spaces. -/
def matchesListItem (source : List Nat) (strict : Bool) : ListMatch × ListItemType :=
  let mt := parseListItem source
  if mt.2 ≠ .notList ∧ (strict = false ∨ (strict = true ∧ mt.1.m1 < 4)) then mt
  else (mt.1, .notList)

/-- `calcListOffset` of the source: 1 for an item starting with a blank line,
otherwise the measured indent width of the content start (reset to 1 when it
exceeds 4, an indented code block). -/
def calcListOffset (source : List Nat) (m : ListMatch) : Nat :=
  if m.m4 < 0 ∨ isBlank (source.drop m.m4.toNat) then 1
  else
    let offset := (indentWidth (source.drop m.m4.toNat) m.m4.toNat).1
    if 4 < offset then 1 else offset

/-- `getListTypeFromMarker` of the source: the HTML `type` symbol (as its
byte string) and the CSS class suffix for a marker.  The roman test of the
source is an inner `if` whose failure falls through to the alphabetic
classification; here that is written as one conjoined condition. -/
def getListTypeFromMarker (marker : List Nat) (typ : ListItemType) : List Nat × String :=
  if typ = .orderedList then ([49], "fl-num")
  else if typ = .orderedListFancy then
    if marker = [35] then ([49], "fl-num")
    else if 0 < marker.length then
      if (marker.getD 0 0 = 105 ∨ marker.getD 0 0 = 73) ∧ (romanToNumber marker).2 = true then
        if isLowerByte (marker.getD 0 0) = true then ([105], "fl-lcroman")
        else ([73], "fl-ucroman")
      else if isLowerByte (marker.getD 0 0) = true then ([97], "fl-lcalpha")
      else ([65], "fl-ucalpha")
    else ([49], "fl-num")
  else ([49], "fl-num")

/-- `strconv.Atoi` on the scanner-produced digit runs (1 to 9 ASCII digits,
no sign, no overflow): the decimal value. -/
def atoiDigits (ds : List Nat) : Int :=
  ds.foldl (fun (acc : Int) (d : Nat) => acc * 10 + ((d : Int) - 48)) 0

/-- The host-engine state read by `fancyListParser.Open`:
whether the last opened block is a list, the residual skip flag, and the
paragraph-interruption context. -/
structure OpenCtx where
  lastIsList : Bool
  skipFlag : Bool
  lastIsParagraph : Bool
  lastSharesParent : Bool
  parentIsListItem : Bool
  deriving DecidableEq

/-- The `ast.List` node created by `fancyListParser.Open`: the marker byte,
the `Start` field (0 from `ast.NewList`, overwritten when the computed start
is greater than -1) and the `type` attribute when one was stored. -/
structure NewListNode where
  marker : Nat
  start : Int
  typeAttr : Option (List Nat)
  deriving DecidableEq

/-- The `switch typ` block of `fancyListParser.Open` (source lines 483-520):
computes the start value and the optional `type` attribute, `none` signalling
the early `return nil` rejections of the fancy branch.  `start` stays -1 for
bullets, and also for a fancy marker whose first byte is neither `i`/`I` nor
a letter (no branch of the source assigns it). -/
def openStartAndType (line : List Nat) (m : ListMatch) (typ : ListItemType) :
    Option (Int × Option (List Nat)) :=
  if typ = .orderedList then
    some (atoiDigits (sliceBytes line m.m2 (m.m3 - 1)), none)
  else if typ = .orderedListFancy then
    let number := sliceBytes line m.m2 (m.m3 - 1)
    if number = [35] then some (1, none)
    else if 0 < number.length ∧ (number.getD 0 0 = 105 ∨ number.getD 0 0 = 73) then
      if (romanToNumber number).2 = true then
        some ((romanToNumber number).1,
          some (if isLowerByte (number.getD 0 0) = true then [105] else [73]))
      else none
    else if isGoLetterByte (number.getD 0 0) = true then
      if alphabeticToNumber number = 0 then none
      else
        some (alphabeticToNumber number,
          some (if isLowerByte (number.getD 0 0) = true then [97] else [65]))
    else some (-1, none)
  else some (-1, none)

/-- `fancyListParser.Open` of the source: refuse when the last opened block
is already a list or the skip flag is set; scan in strict mode; compute
start/type; apply the paragraph-interruption guard; build the node. -/
def fancyListOpen (ctx : OpenCtx) (line : List Nat) : Option NewListNode :=
  if ctx.lastIsList = true ∨ ctx.skipFlag = true then none
  else
    let mt := matchesListItem line true
    let m := mt.1
    let typ := mt.2
    if typ = .notList then none
    else
      match openStartAndType line m typ with
      | none => none
      | some (start, fltype) =>
        let node : NewListNode :=
          ⟨line.getD (m.m3 - 1).toNat 0, if -1 < start then start else 0, fltype⟩
        if ctx.lastIsParagraph = true ∧ ctx.lastSharesParent = true then
          if ctx.parentIsListItem = false ∧
              ((typ = .orderedList ∧ start ≠ 1) ∨ (typ = .orderedListFancy ∧ start ≠ 1)) then
            none
          else if m.m4 < 0 ∨ isBlank (sliceBytes line m.m4 m.m5) = true then none
          else some node
        else some node

/-- `ast.List.IsOrdered` of the host engine: the list's marker byte is
`.` or `)`. -/
def listIsOrderedB (marker : Nat) : Bool :=
  marker == 46 || marker == 41

/-- `ast.List.CanContinue` of the host engine: the candidate marker byte
equals the list's marker byte and the candidate's orderedness equals the
list's. -/
def listCanContinue (listMarker candMarker : Nat) (isOrdered : Bool) : Bool :=
  (candMarker == listMarker) && (isOrdered == listIsOrderedB listMarker)

/-- The per-container state read by `fancyListParser.Continue`: the stored
`type` attribute, the list's marker byte, the child count of the last item,
the offset recorded for the last item (`lastOffset`), the
`emptyListItemWithBlankLines` flag, and the reader's line offset. -/
structure ContState where
  typeAttr : Option (List Nat)
  listMarker : Nat
  lastChildCount : Nat
  lastOffset : Nat
  emptyFlag : Bool
  lineOffset : Nat
  deriving DecidableEq

/-- Result of a `Continue` callback: `parser.Close`, or
`parser.Continue | parser.HasChildren`. -/
inductive ContinueResult
  | close
  | continueHasChildren
  deriving DecidableEq

/-- The expected-type computation of `fancyListParser.Continue` (source
lines 612-633): a bare `i`/`I` token is kept as the current type when the
current type is the same-case alphabetic tag, and otherwise read as the
roman tag of its case; every other token goes through
`getListTypeFromMarker`. -/
def expectedTypeFor (currentType markerStr : List Nat) (typ : ListItemType) : List Nat :=
  if markerStr.length = 1 ∧ (markerStr = [105] ∨ markerStr = [73]) then
    if (currentType = [97] ∧ markerStr = [105]) ∨ (currentType = [65] ∧ markerStr = [73]) then
      currentType
    else if markerStr = [105] then [105]
    else [73]
  else (getListTypeFromMarker markerStr typ).1

/-- `fancyListParser.Continue` of the source.  Returns the parser state and
the container state after the call (only the `emptyListItemWithBlankLines`
flag is ever written; in particular the stored `type` attribute is never
touched).  The current type defaults to `"1"` when no `type` attribute is
stored. -/
def fancyListContinue (st : ContState) (line : List Nat) : ContinueResult × ContState :=
  if isBlank line = true then
    (.continueHasChildren, if st.lastChildCount = 0 then { st with emptyFlag := true } else st)
  else
    let offset := st.lastOffset
    let lastIsEmpty := st.lastChildCount = 0
    let indent := (indentWidth line st.lineOffset).1
    let mt := matchesListItem line false
    let m := mt.1
    let typ := mt.2
    let after : ContinueResult × ContState :=
      if lastIsEmpty ∧ indent < offset then (.close, st)
      else if st.emptyFlag = true then (.close, st)
      else (.continueHasChildren, st)
    if indent < offset ∨ lastIsEmpty then
      if indent < 4 ∧ typ ≠ .notList ∧ m.m1 - (offset : Int) < 4 then
        let marker := line.getD (m.m3 - 1).toNat 0
        if listCanContinue st.listMarker marker
            (decide (typ = .orderedList ∨ typ = .orderedListFancy)) = false then
          (.close, st)
        else if typ = .orderedList ∨ typ = .orderedListFancy then
          let markerBytes := sliceBytes line m.m2 (m.m3 - 1)
          if markerBytes ≠ [35] then
            let currentType := st.typeAttr.getD [49]
            if expectedTypeFor currentType markerBytes typ ≠ currentType then (.close, st)
            else (.continueHasChildren, st)
          else (.continueHasChildren, st)
        else (.continueHasChildren, st)
      else if ¬ lastIsEmpty then (.close, st)
      else after
    else after

/-- The host-engine state read by `fancyListItemParser.Open`: the parent
node (a list or not), its `Start` field, its child count, and the offset of
its last item. -/
structure ItemCtx where
  parentIsList : Bool
  listStart : Int
  listChildCount : Nat
  listLastOffset : Nat
  deriving DecidableEq

/-- Decimal rendering of an integer (`strconv.Itoa`), as the character list
of the emitted bytes. -/
def itoa (n : Int) : List Char :=
  (toString n).data

/-- The `ast.ListItem` node created by `fancyListItemParser.Open`: its
`Offset`, the stored `value` attribute (the decimal string stored by
`SetAttribute`), and whether the parser reported `HasChildren`. -/
structure ListItemNode where
  offset : Int
  valueAttr : Option (List Char)
  hasChildren : Bool
  deriving DecidableEq

/-- `fancyListItemParser.Open` of the source: require a list parent, scan in
lax mode, reject a marker indented more than 3 columns past the recorded
offset, build the item with `Offset = markerEnd + calcListOffset`, store
`value = childCount + start` for ordered and fancy markers, and report
`NoChildren` exactly when the content span is absent or blank.  (The
reader-advance side effects carry no node state and are not modelled.) -/
def fancyListItemOpen (ctx : ItemCtx) (line : List Nat) : Option ListItemNode :=
  if ctx.parentIsList = false then none
  else
    let offset := ctx.listLastOffset
    let mt := matchesListItem line false
    let m := mt.1
    let typ := mt.2
    if typ = .notList then none
    else if 3 < m.m1 - (offset : Int) then none
    else
      let itemOffset := calcListOffset line m
      let value : Option (List Char) :=
        if typ = .orderedList ∨ typ = .orderedListFancy then
          some (itoa ((ctx.listChildCount : Int) + ctx.listStart))
        else none
      if m.m4 < 0 ∨ isBlank (sliceBytes line m.m4 m.m5) = true then
        some ⟨m.m3 + (itemOffset : Int), value, false⟩
      else some ⟨m.m3 + (itemOffset : Int), value, true⟩

/-- The characters of a string literal, for modelling the renderer's byte
sink. -/
def wstr (s : String) : List Char :=
  s.data

/-- `ast.Node.AttributeString` over the modelled attribute list: the value
of the first attribute with the given name. -/
def attributeString (attrs : List (String × String)) (name : String) : Option String :=
  (attrs.find? (fun a => a.1 == name)).map (fun a => a.2)

/-- The `entering` branch of `fancyListHTMLRenderer.renderList`: the bytes
written for the opening tag of a list node with the given orderedness,
attributes and `Start` field.  Mirrors the source's write sequence: tag,
combined class attribute, ordered-only `type` and `start` attributes (the
`start` attribute is written in both branches of the `Start != 1` test, the
else branch writing the constant `start="1"`), then the remaining attributes
skipping `class` and `type`. -/
def renderListOpenTag (isOrdered : Bool) (attrs : List (String × String)) (start : Int) :
    List Char :=
  let classValues : List String :=
    (if isOrdered = true then
      ["fancy"] ++
        [match attributeString attrs "type" with
          | some "a" => "fl-lcalpha"
          | some "A" => "fl-ucalpha"
          | some "i" => "fl-lcroman"
          | some "I" => "fl-ucroman"
          | some _ => "fl-num"
          | none => "fl-num"]
    else []) ++
      (match attributeString attrs "class" with
        | some c => [c]
        | none => [])
  let classPart : List Char :=
    if 0 < classValues.length then
      wstr " class=\"" ++ wstr (String.intercalate " " classValues) ++ wstr "\""
    else []
  let typePart : List Char :=
    if isOrdered = true then
      match attributeString attrs "type" with
      | some t => wstr " type=\"" ++ wstr t ++ wstr "\""
      | none => wstr " type=\"1\""
    else []
  let startPart : List Char :=
    if isOrdered = true then
      if start ≠ 1 then wstr " start=\"" ++ itoa start ++ wstr "\""
      else wstr " start=\"1\""
    else []
  let otherPart : List Char :=
    (attrs.filterMap (fun a =>
      if a.1 ≠ "class" ∧ a.1 ≠ "type" then
        some (wstr " " ++ wstr a.1 ++ wstr "=\"" ++ wstr a.2 ++ wstr "\"")
      else none)).flatten
  wstr "<" ++ wstr (if isOrdered = true then "ol" else "ul") ++ classPart ++ typePart ++
    startPart ++ otherPart ++ wstr ">\n"

/-- The `entering` branch of `fancyListItemHTMLRenderer.renderListItem`: the
bytes written for the opening tag of a list item.  The node's attributes
(`attrs`, which for an ordered item hold the stored `value`) are never
consulted: no `value` attribute is emitted.  `firstChild` is `none` for a
childless item and otherwise carries whether the first child is a text
block (in which case no newline follows the tag). -/
def renderListItemOpenTag (attrs : List (String × String)) (firstChild : Option Bool) :
    List Char :=
  let _ := attrs
  wstr "<li" ++ wstr ">" ++
    (match firstChild with
    | none => []
    | some isTextBlock => if isTextBlock = true then [] else wstr "\n")

/-! ## Helper lemmas -/

theorem takeWhile_append_all {p : Nat → Bool} (d l : List Nat) (h : ∀ b ∈ d, p b = true) :
    (d ++ l).takeWhile p = d ++ l.takeWhile p := by
  induction d with
  | nil => rfl
  | cons c d ih =>
    simp only [List.cons_append, List.takeWhile_cons, h c (by simp), if_true]
    rw [ih (fun b hb => h b (by simp [hb]))]

theorem getD_append_len (d l : List Nat) (k x : Nat) :
    (d ++ l).getD (d.length + k) x = l.getD k x := by
  induction d with
  | nil => simp
  | cons c d ih => simpa [Nat.succ_add] using ih

theorem drop_append_len (d l : List Nat) (k : Nat) :
    (d ++ l).drop (d.length + k) = l.drop k := by
  induction d with
  | nil => simp
  | cons c d ih => simpa [Nat.succ_add] using ih

theorem finishScan_m1 (line : List Nat) (r : ListMatch) (i : Nat) (t : ListItemType) :
    ((finishScan line r i t).1).m1 = r.m1 := by
  simp only [finishScan]
  split
  · rfl
  · split
    · rfl
    · rfl

theorem parse_m1_lt_or (line : List Nat) :
    (parseListItem line).1.m1 < 4 ∨ (parseListItem line).2 = .notList := by
  simp only [parseListItem]
  split_ifs with h1 h2 h3 h4 h5 h6 h7 h8 h9 <;>
    first
      | exact Or.inr rfl
      | (refine Or.inl ?_
         rw [finishScan_m1]
         simp only []
         omega)

theorem parse_ne_notList_m1 (line : List Nat) (h : (parseListItem line).2 ≠ .notList) :
    (parseListItem line).1.m1 < 4 := by
  rcases parse_m1_lt_or line with h' | h'
  · exact h'
  · exact absurd h' h

theorem intToRoman_head73 (n : Nat) (h1 : 1 ≤ n) (h : (intToRoman n).headD 0 = 73) :
    n = 1 ∨ n = 2 ∨ n = 3 ∨ n = 4 ∨ n = 9 := by
  unfold intToRoman at h
  by_cases k3 : n / 1000 = 0
  case neg =>
    exfalso
    obtain ⟨k, hk⟩ : ∃ k, n / 1000 = k + 1 := ⟨n / 1000 - 1, by omega⟩
    rw [hk, List.replicate_succ] at h
    simp only [List.cons_append, List.headD_cons] at h
    omega
  case pos =>
    rw [k3, List.replicate_zero, List.nil_append] at h
    by_cases k2 : n / 100 % 10 = 0
    case neg =>
      exfalso
      have h10 : n / 100 % 10 < 10 := Nat.mod_lt _ (by norm_num)
      have hcases : n / 100 % 10 = 1 ∨ n / 100 % 10 = 2 ∨ n / 100 % 10 = 3 ∨
          n / 100 % 10 = 4 ∨ n / 100 % 10 = 5 ∨ n / 100 % 10 = 6 ∨ n / 100 % 10 = 7 ∨
          n / 100 % 10 = 8 ∨ n / 100 % 10 = 9 := by omega
      rcases hcases with hc | hc | hc | hc | hc | hc | hc | hc | hc <;>
        rw [hc] at h <;>
        simp only [show romanHundreds.getD 1 [] = [67] from rfl,
          show romanHundreds.getD 2 [] = [67, 67] from rfl,
          show romanHundreds.getD 3 [] = [67, 67, 67] from rfl,
          show romanHundreds.getD 4 [] = [67, 68] from rfl,
          show romanHundreds.getD 5 [] = [68] from rfl,
          show romanHundreds.getD 6 [] = [68, 67] from rfl,
          show romanHundreds.getD 7 [] = [68, 67, 67] from rfl,
          show romanHundreds.getD 8 [] = [68, 67, 67, 67] from rfl,
          show romanHundreds.getD 9 [] = [67, 77] from rfl,
          List.cons_append, List.headD_cons] at h <;> omega
    case pos =>
      rw [k2, show romanHundreds.getD 0 [] = [] from rfl, List.nil_append] at h
      by_cases k1 : n / 10 % 10 = 0
      case neg =>
        exfalso
        have h10 : n / 10 % 10 < 10 := Nat.mod_lt _ (by norm_num)
        have hcases : n / 10 % 10 = 1 ∨ n / 10 % 10 = 2 ∨ n / 10 % 10 = 3 ∨
            n / 10 % 10 = 4 ∨ n / 10 % 10 = 5 ∨ n / 10 % 10 = 6 ∨ n / 10 % 10 = 7 ∨
            n / 10 % 10 = 8 ∨ n / 10 % 10 = 9 := by omega
        rcases hcases with hc | hc | hc | hc | hc | hc | hc | hc | hc <;>
          rw [hc] at h <;>
          simp only [show romanTens.getD 1 [] = [88] from rfl,
            show romanTens.getD 2 [] = [88, 88] from rfl,
            show romanTens.getD 3 [] = [88, 88, 88] from rfl,
            show romanTens.getD 4 [] = [88, 76] from rfl,
            show romanTens.getD 5 [] = [76] from rfl,
            show romanTens.getD 6 [] = [76, 88] from rfl,
            show romanTens.getD 7 [] = [76, 88, 88] from rfl,
            show romanTens.getD 8 [] = [76, 88, 88, 88] from rfl,
            show romanTens.getD 9 [] = [88, 67] from rfl,
            List.cons_append, List.headD_cons] at h <;> omega
      case pos =>
        rw [k1, show romanTens.getD 0 [] = [] from rfl, List.nil_append] at h
        have hn10 : n < 10 := by omega
        rw [Nat.mod_eq_of_lt hn10] at h
        interval_cases n <;> revert h <;> decide

/-! ## Claim theorems -/

/-- C10: for every input line, `matchesListItem(line, true)` returns exactly
the same match positions and kind as `matchesListItem(line, false)` — the
strict flag is vacuous, because `parseListItem` already returns `notList`
whenever the leading-space count exceeds 3, so the strict-mode condition
`m[1] < 4` holds for every successful parse. -/
theorem matchesListItem_strict_irrelevant (source : List Nat) :
    matchesListItem source true = matchesListItem source false := by
  unfold matchesListItem
  by_cases hn : (parseListItem source).2 = ListItemType.notList
  · simp [hn]
  · simp [hn, parse_ne_notList_m1 source hn]

/-- Instantiation of `matchesListItem_strict_irrelevant` at a concrete line
(the bytes of "1. x"). -/
theorem matchesListItem_strict_irrelevant_app :
    matchesListItem [49, 46, 32, 120] true = matchesListItem [49, 46, 32, 120] false :=
  matchesListItem_strict_irrelevant [49, 46, 32, 120]

/-- C4: `alphabeticToNumber` implements the bijective base-26 numeral system
with digits 1..26, case-insensitively: a=1, z=26, aa=27, ab=28, vi=581
(and VI=581); it returns 0 for the empty string and for every input
containing a non-letter byte. -/
theorem alphabeticToNumber_bijective_base26 :
    alphabeticToNumber [97] = 1 ∧ alphabeticToNumber [122] = 26 ∧
    alphabeticToNumber [97, 97] = 27 ∧ alphabeticToNumber [97, 98] = 28 ∧
    alphabeticToNumber [118, 105] = 581 ∧ alphabeticToNumber [86, 73] = 581 ∧
    alphabeticToNumber [] = 0 ∧
    (∀ t : List Nat, (∃ b ∈ t, isAsciiLetter b = false) → alphabeticToNumber t = 0) := by
  refine ⟨by decide, by decide, by decide, by decide, by decide, by decide, by decide, ?_⟩
  intro u hu
  obtain ⟨b, hb, hbl⟩ := hu
  unfold alphabeticToNumber
  by_cases h0 : u.length = 0
  · simp [h0]
  · rw [if_neg h0]
    have hfalse : (u.map asciiLower).all (fun c => 97 ≤ c && c ≤ 122) = false := by
      rw [Bool.eq_false_iff]
      intro hall
      rw [List.all_eq_true] at hall
      have hthis := hall _ (List.mem_map_of_mem asciiLower hb)
      simp only [isAsciiLetter, Bool.or_eq_false_iff, Bool.and_eq_false_iff,
        decide_eq_false_iff_not, not_le, Bool.and_eq_true, decide_eq_true_eq] at hbl hthis
      unfold asciiLower at hthis
      split_ifs at hthis <;> omega
    simp only [hfalse, Bool.false_eq_true, if_false]

/-- Application of the invalid-byte clause of
`alphabeticToNumber_bijective_base26` at the concrete input "a!". -/
theorem alphabeticToNumber_bijective_base26_app :
    alphabeticToNumber [97, 33] = 0 :=
  alphabeticToNumber_bijective_base26.2.2.2.2.2.2.2 [97, 33] ⟨33, by decide, by decide⟩

theorem stringToInt_canonical (s : List Nat) (n : Nat)
    (h : romannumeralStringToInt s = some n) :
    1 ≤ n ∧ n ≤ 3999 ∧ intToRoman n = s := by
  unfold romannumeralStringToInt at h
  cases hp : romanParseLoop s.reverse 0 0 with
  | none => rw [hp] at h; exact absurd h (by simp)
  | some v =>
    rw [hp] at h
    dsimp only at h
    split_ifs at h with hcond
    · obtain ⟨hc1, hc2, hc3⟩ := hcond
      have hvn : v.toNat = n := by injection h
      subst hvn
      exact ⟨by omega, by omega, hc3⟩

/-- C3 (amended): `romanToNumber` succeeds only for tokens whose case-folded
first byte is `i` (tokens like "vi" or "c" yield `(0, false)`); and among
short ASCII tokens whose case-folded first byte is `i`, the accepted set is
exactly the tokens whose upper-cased form is one of I, II, III, IV, IX —
the original claim's set is missing ix/IX (decoded as roman 9) and all the
mixed-case variants. -/
theorem romanToNumber_accepted_set :
    (∀ t : List Nat, asciiLower (t.getD 0 0) ≠ 105 → romanToNumber t = (0, false)) ∧
    (∀ t : List Nat, (∀ b ∈ t, b < 128) → t.length ≤ 3 →
      asciiLower (t.getD 0 0) = 105 →
      ((romanToNumber t).2 = true ↔
        t.map asciiUpper ∈
          ([[73], [73, 73], [73, 73, 73], [73, 86], [73, 88]] : List (List Nat)))) := by
  constructor
  · intro t h
    unfold romanToNumber
    by_cases h0 : t.length = 0
    · rw [if_pos h0]
    · rw [if_neg h0, if_pos h]
  · intro t hascii hlen h105
    have ht0 : t.getD 0 0 = 73 ∨ t.getD 0 0 = 105 := by
      unfold asciiLower at h105
      split_ifs at h105 <;> omega
    have htne : t ≠ [] := by
      intro he
      rw [he] at h105
      simp [asciiLower] at h105
    obtain ⟨c, ts, rfl⟩ := List.exists_cons_of_ne_nil htne
    have hc0 : c = 73 ∨ c = 105 := by
      simpa using ht0
    have hup : asciiUpper c = 73 := by
      rcases hc0 with h | h <;> rw [h] <;> decide
    unfold romanToNumber
    rw [if_neg (by simp), if_neg (not_not_intro h105)]
    constructor
    · intro hsucc
      cases hr : romannumeralStringToInt ((c :: ts).map asciiUpper) with
      | none => rw [hr] at hsucc; simp at hsucc
      | some n =>
        obtain ⟨hn1, _, hcanon⟩ := stringToInt_canonical _ n hr
        have hhead : (intToRoman n).headD 0 = 73 := by
          rw [hcanon]
          simp [hup]
        have hset := intToRoman_head73 n hn1 hhead
        rw [← hcanon]
        rcases hset with h | h | h | h | h <;> rw [h] <;> decide
    · intro hmem
      simp only [List.mem_cons, List.mem_singleton, List.not_mem_nil, or_false] at hmem
      rcases hmem with hc | hc | hc | hc | hc <;> rw [hc] <;> decide

/-- Counterexample to C3 as stated: "ix" is a short token starting with `i`,
is accepted by `romanToNumber` (with value 9), and is not in the claimed
set {i, ii, iii, iv, I, II, III, IV}. -/
theorem romanToNumber_accepts_ix :
    romanToNumber [105, 120] = (9, true) ∧ ([105, 120] : List Nat).length ≤ 3 ∧
    [105, 120] ∉ ([[105], [105, 105], [105, 105, 105], [105, 118],
      [73], [73, 73], [73, 73, 73], [73, 86]] : List (List Nat)) := by
  decide

/-- Application of `romanToNumber_accepted_set` at the concrete tokens "vi"
(rejected: first byte is not i) and "ii" (accepted). -/
theorem romanToNumber_accepted_set_app :
    romanToNumber [118, 105] = (0, false) ∧ (romanToNumber [105, 105]).2 = true := by
  constructor
  · exact romanToNumber_accepted_set.1 [118, 105] (by decide)
  · exact (romanToNumber_accepted_set.2 [105, 105] (by decide) (by decide)
      (by decide)).mpr (by decide)



theorem finishScan_token (tok : List Nat) (r : ListMatch) (ty : ListItemType) :
    finishScan (tok ++ [46, 32, 120]) r (tok.length + 1) ty =
      ({ r with m4 := (tok.length : Int) + 1, m5 := (tok.length : Int) + 3 }, ty) := by
  have hlen : (tok ++ [46, 32, 120]).length = tok.length + 3 := by simp
  have hdrop : (tok ++ [46, 32, 120]).drop (tok.length + 1) = [32, 120] := by
    simpa using drop_append_len tok [46, 32, 120] 1
  have hgd2 : (tok ++ [46, 32, 120]).getD (tok.length + 2) 0 = 120 :=
    getD_append_len tok [46, 32, 120] 2 0
  have hiw : (indentWidth ([32, 120] : List Nat) 0).1 = 1 := rfl
  simp only [finishScan, hlen, hdrop, hiw]
  rw [if_neg (by simp), if_neg (by omega)]
  have h31 : tok.length + 3 - 1 = tok.length + 2 := by omega
  rw [h31, hgd2, if_neg (by simp)]
  simp only [Prod.mk.injEq, ListMatch.mk.injEq, and_true, true_and]
  omega

theorem parse_digit_line (d : List Nat) (hd : ∀ b ∈ d, isNumericByte b = true)
    (h1 : 1 ≤ d.length) (h9 : d.length ≤ 9) :
    parseListItem (d ++ [46, 32, 120]) =
      (⟨0, 0, 0, (d.length : Int) + 1, (d.length : Int) + 1, (d.length : Int) + 3⟩,
        .orderedList) := by
  have hdne : d ≠ [] := by intro he; rw [he] at h1; simp at h1
  obtain ⟨c, ts, rfl⟩ := List.exists_cons_of_ne_nil hdne
  have hc : 48 ≤ c ∧ c ≤ 57 := by
    simpa [isNumericByte] using hd c (by simp)
  have htw : (List.takeWhile (fun x => x == 32) ((c :: ts) ++ [46, 32, 120])).length = 0 := by
    rw [List.cons_append, List.takeWhile_cons]
    have hne : (c == 32) = false := by simp; omega
    rw [hne]
    rfl
  have hgd0 : ((c :: ts) ++ [46, 32, 120]).getD 0 0 = c := by
    rw [List.cons_append]; rfl
  have hrun : List.takeWhile isNumericByte ((c :: ts) ++ [46, 32, 120]) = c :: ts := by
    rw [takeWhile_append_all (c :: ts) [46, 32, 120] hd,
      show List.takeWhile isNumericByte [46, 32, 120] = [] from rfl, List.append_nil]
  have hterm : ((c :: ts) ++ [46, 32, 120]).getD ((c :: ts).length) 0 = 46 := by
    simpa using getD_append_len (c :: ts) [46, 32, 120] 0 0
  have hLL : (c :: ts ++ [46, 32, 120]).length = (c :: ts).length + 3 := by simp
  have hterm0 : (c :: ts ++ [46, 32, 120]).getD (0 + (c :: ts).length) 0 = 46 := by
    rw [Nat.zero_add]; exact hterm
  simp only [parseListItem, htw, List.drop_zero, hrun, hgd0]
  rw [if_neg (by omega : ¬ (3 : Nat) < 0)]
  rw [if_neg (by rintro ⟨-, h | h | h⟩ <;> omega)]
  rw [if_pos (by simp)]
  rw [if_neg (by omega : ¬ c = 35)]
  rw [if_pos (⟨by simp, h9⟩ : 0 < (c :: ts).length ∧ (c :: ts).length ≤ 9)]
  rw [if_pos ⟨by omega, Or.inl hterm0⟩]
  rw [show 0 + (c :: ts).length + 1 = (c :: ts).length + 1 from by omega]
  rw [finishScan_token]
  simp only [Prod.mk.injEq, ListMatch.mk.injEq, and_true, true_and]
  constructor
  · omega
  · constructor <;> push_cast <;> omega

theorem isGoLetter_of_ascii {b : Nat} (h : isAsciiLetter b = true) :
    isGoLetterByte b = true := by
  simp only [isAsciiLetter, Bool.or_eq_true, Bool.and_eq_true, decide_eq_true_eq] at h
  simp only [isGoLetterByte, Bool.or_eq_true, Bool.and_eq_true, decide_eq_true_eq, beq_iff_eq]
  omega

theorem parse_letter_line (t : List Nat) (ht : ∀ b ∈ t, isAsciiLetter b = true)
    (h1 : 1 ≤ t.length) (h6 : t.length ≤ 6) :
    parseListItem (t ++ [46, 32, 120]) =
      (⟨0, 0, 0, (t.length : Int) + 1, (t.length : Int) + 1, (t.length : Int) + 3⟩,
        .orderedListFancy) := by
  have hdne : t ≠ [] := by intro he; rw [he] at h1; simp at h1
  obtain ⟨c, ts, rfl⟩ := List.exists_cons_of_ne_nil hdne
  have hc : (65 ≤ c ∧ c ≤ 90) ∨ (97 ≤ c ∧ c ≤ 122) := by
    simpa [isAsciiLetter] using ht c (by simp)
  have htw : (List.takeWhile (fun x => x == 32) ((c :: ts) ++ [46, 32, 120])).length = 0 := by
    rw [List.cons_append, List.takeWhile_cons]
    have hne : (c == 32) = false := by simp; omega
    rw [hne]
    rfl
  have hgd0 : ((c :: ts) ++ [46, 32, 120]).getD 0 0 = c := by
    rw [List.cons_append]; rfl
  have hnum : List.takeWhile isNumericByte ((c :: ts) ++ [46, 32, 120]) = [] := by
    rw [List.cons_append, List.takeWhile_cons]
    have hne : isNumericByte c = false := by simp [isNumericByte]; omega
    rw [hne]
    rfl
  have hrun : List.takeWhile isGoLetterByte ((c :: ts) ++ [46, 32, 120]) = c :: ts := by
    rw [takeWhile_append_all (c :: ts) [46, 32, 120]
        (fun b hb => isGoLetter_of_ascii (ht b hb)),
      show List.takeWhile isGoLetterByte [46, 32, 120] = [] from rfl, List.append_nil]
  have hterm : ((c :: ts) ++ [46, 32, 120]).getD ((c :: ts).length) 0 = 46 := by
    simpa using getD_append_len (c :: ts) [46, 32, 120] 0 0
  have hLL : (c :: ts ++ [46, 32, 120]).length = (c :: ts).length + 3 := by simp
  have hterm0 : (c :: ts ++ [46, 32, 120]).getD (0 + (c :: ts).length ⊓ 6) 0 = 46 := by
    rw [Nat.zero_add, Nat.min_eq_left h6]
    exact hterm
  simp only [parseListItem, htw, List.drop_zero, hnum, hrun, hgd0]
  rw [if_neg (by omega : ¬ (3 : Nat) < 0)]
  rw [if_neg (by rintro ⟨-, h | h | h⟩ <;> omega)]
  rw [if_pos (by simp)]
  rw [if_neg (by omega : ¬ c = 35)]
  rw [if_neg (by simp)]
  rw [if_pos (by rw [Nat.min_eq_left h6]; simp)]
  rw [if_pos ⟨by rw [Nat.min_eq_left h6]; omega, Or.inl hterm0⟩]
  rw [show 0 + (c :: ts).length ⊓ 6 + 1 = (c :: ts).length + 1 from by
    rw [Nat.min_eq_left h6]; omega]
  rw [finishScan_token]
  simp only [Prod.mk.injEq, ListMatch.mk.injEq, and_true, true_and, Nat.min_eq_left h6]
  constructor
  · omega
  · constructor <;> push_cast <;> omega

theorem parse_ten_digit_line (d : List Nat) (hd : ∀ b ∈ d, isNumericByte b = true)
    (h10 : d.length = 10) :
    (parseListItem (d ++ [46, 32, 120])).2 = .notList := by
  have hdne : d ≠ [] := by intro he; rw [he] at h10; simp at h10
  obtain ⟨c, ts, rfl⟩ := List.exists_cons_of_ne_nil hdne
  have hc : 48 ≤ c ∧ c ≤ 57 := by
    simpa [isNumericByte] using hd c (by simp)
  have htw : (List.takeWhile (fun x => x == 32) ((c :: ts) ++ [46, 32, 120])).length = 0 := by
    rw [List.cons_append, List.takeWhile_cons]
    have hne : (c == 32) = false := by simp; omega
    rw [hne]
    rfl
  have hgd0 : ((c :: ts) ++ [46, 32, 120]).getD 0 0 = c := by
    rw [List.cons_append]; rfl
  have hrun : List.takeWhile isNumericByte ((c :: ts) ++ [46, 32, 120]) = c :: ts := by
    rw [takeWhile_append_all (c :: ts) [46, 32, 120] hd,
      show List.takeWhile isNumericByte [46, 32, 120] = [] from rfl, List.append_nil]
  have hletter : List.takeWhile isGoLetterByte ((c :: ts) ++ [46, 32, 120]) = [] := by
    rw [List.cons_append, List.takeWhile_cons]
    have hne : isGoLetterByte c = false := by simp [isGoLetterByte]; omega
    rw [hne]
    rfl
  simp only [parseListItem, htw, List.drop_zero, hrun, hgd0, hletter]
  rw [if_neg (by omega : ¬ (3 : Nat) < 0)]
  rw [if_neg (by rintro ⟨-, h | h | h⟩ <;> omega)]
  rw [if_pos (by simp)]
  rw [if_neg (by omega : ¬ c = 35)]
  rw [if_neg (by rintro ⟨-, h⟩; omega)]
  rw [if_neg (by simp)]

theorem atoiDigits_nonneg (d : List Nat) (hd : ∀ b ∈ d, isNumericByte b = true) :
    0 ≤ atoiDigits d := by
  suffices h : ∀ acc : Int, 0 ≤ acc →
      0 ≤ d.foldl (fun (acc : Int) (b : Nat) => acc * 10 + ((b : Int) - 48)) acc by
    unfold atoiDigits
    exact h 0 le_rfl
  induction d with
  | nil => intro acc h; exact h
  | cons c ds ih =>
    intro acc h
    rw [List.foldl_cons]
    refine ih (fun b hb => hd b (by simp [hb])) _ ?_
    have hc : 48 ≤ c ∧ c ≤ 57 := by
      simpa [isNumericByte] using hd c (by simp)
    have hc48 : (48 : Int) ≤ (c : Int) := by exact_mod_cast hc.1
    omega

theorem open_digit_line (d : List Nat) (hd : ∀ b ∈ d, isNumericByte b = true)
    (h1 : 1 ≤ d.length) (h9 : d.length ≤ 9) :
    fancyListOpen ⟨false, false, false, false, false⟩ (d ++ [46, 32, 120]) =
      some ⟨46, atoiDigits d, none⟩ := by
  have hparse := parse_digit_line d hd h1 h9
  have hmatch : matchesListItem (d ++ [46, 32, 120]) true =
      (⟨0, 0, 0, (d.length : Int) + 1, (d.length : Int) + 1, (d.length : Int) + 3⟩,
        .orderedList) := by
    unfold matchesListItem
    rw [hparse]
    simp
  have hslice : sliceBytes (d ++ [46, 32, 120]) 0 (((d.length : Int) + 1) - 1) = d := by
    unfold sliceBytes
    rw [show (((d.length : Int) + 1) - 1) = (d.length : Int) from by ring]
    rw [Int.toNat_natCast]
    rw [List.take_left]
    rfl
  have hgd : (d ++ [46, 32, 120]).getD ((((d.length : Int) + 1) - 1).toNat) 0 = 46 := by
    rw [show (((d.length : Int) + 1) - 1) = (d.length : Int) from by ring, Int.toNat_natCast]
    simpa using getD_append_len d [46, 32, 120] 0 0
  have hnn : (0 : Int) ≤ atoiDigits d := atoiDigits_nonneg d hd
  have hlt : (-1 : Int) < atoiDigits d := by omega
  simp only [fancyListOpen, hmatch, openStartAndType, hslice, hgd]
  rw [if_neg (by simp : ¬ (ListItemType.orderedList = ListItemType.notList)),
    if_pos trivial]
  dsimp only
  rw [if_neg (by simp), if_pos hlt]
  rw [if_neg (by simp)]

/-- C5 (amended): at List-Open, an OrderedFancy letter token (scanned from a
line `tok. x`) whose first byte is `i` or `I` but whose roman decode fails is
rejected outright — there is no alphabetic fallback in `fancyListParser.Open`;
only a token whose first byte is a letter other than `i`/`I` is classified by
the alphabetic conversion with the tag of its first-byte case, the Open
attempt being rejected exactly when that alphabetic value resolves to 0. -/
theorem open_fancy_iI_no_fallback (t : List Nat) (ht : ∀ b ∈ t, isAsciiLetter b = true)
    (h1 : 1 ≤ t.length) (h6 : t.length ≤ 6) :
    ((t.getD 0 0 = 105 ∨ t.getD 0 0 = 73) → (romanToNumber t).2 = false →
      fancyListOpen ⟨false, false, false, false, false⟩ (t ++ [46, 32, 120]) = none) ∧
    (¬(t.getD 0 0 = 105 ∨ t.getD 0 0 = 73) →
      fancyListOpen ⟨false, false, false, false, false⟩ (t ++ [46, 32, 120]) =
        (if alphabeticToNumber t = 0 then none
         else some ⟨46, (alphabeticToNumber t : Int),
           some (if isLowerByte (t.getD 0 0) = true then [97] else [65])⟩)) := by
  have hdne : t ≠ [] := by intro he; rw [he] at h1; simp at h1
  obtain ⟨c, ts, rfl⟩ := List.exists_cons_of_ne_nil hdne
  have hparse := parse_letter_line (c :: ts) ht h1 h6
  have hmatch : matchesListItem ((c :: ts) ++ [46, 32, 120]) true =
      (⟨0, 0, 0, ((c :: ts).length : Int) + 1, ((c :: ts).length : Int) + 1,
        ((c :: ts).length : Int) + 3⟩, .orderedListFancy) := by
    unfold matchesListItem
    rw [hparse]
    simp
  have hslice : sliceBytes ((c :: ts) ++ [46, 32, 120]) 0
      ((((c :: ts).length : Int) + 1) - 1) = c :: ts := by
    unfold sliceBytes
    rw [show ((((c :: ts).length : Int) + 1) - 1) = ((c :: ts).length : Int) from by ring]
    rw [Int.toNat_natCast]
    rw [List.take_left]
    rfl
  have hgd : ((c :: ts) ++ [46, 32, 120]).getD
      (((((c :: ts).length : Int) + 1) - 1).toNat) 0 = 46 := by
    rw [show ((((c :: ts).length : Int) + 1) - 1) = ((c :: ts).length : Int) from by ring,
      Int.toNat_natCast]
    simpa using getD_append_len (c :: ts) [46, 32, 120] 0 0
  have hne35 : c :: ts ≠ [35] := by
    intro he
    have := ht 35 (by rw [he]; simp)
    simp [isAsciiLetter] at this
  constructor
  · intro hfirst hfail
    simp only [List.getD_cons_zero] at hfirst
    simp only [fancyListOpen, hmatch, openStartAndType, hslice, hgd]
    simp [hne35, hfirst, hfail]
  · intro hfirst
    simp only [List.getD_cons_zero] at hfirst
    have hletter : isGoLetterByte c = true := isGoLetter_of_ascii (ht c (by simp))
    simp only [fancyListOpen, hmatch, openStartAndType, hslice, hgd]
    by_cases hz : alphabeticToNumber (c :: ts) = 0
    · simp [hne35, hfirst, hletter, hz]
    · have hlt : (-1 : Int) < (alphabeticToNumber (c :: ts) : Int) := by omega
      simp [hne35, hfirst, hletter, hz, hlt]

/-- C7: when the immediately preceding open block is a paragraph sharing the
candidate's parent: (1) if the candidate is not nested inside a list item,
every ordered candidate (plain or fancy) whose computed start is not 1 is
rejected; (2) independently of nesting, a candidate whose content span is
absent or blank is rejected; (3) a bullet candidate with non-blank content is
not rejected by this guard. -/
theorem paragraph_interruption_guard (ctx : OpenCtx) (line : List Nat)
    (hl : ctx.lastIsList = false) (hs : ctx.skipFlag = false)
    (hp : ctx.lastIsParagraph = true) (hsp : ctx.lastSharesParent = true) :
    (ctx.parentIsListItem = false →
      ((matchesListItem line true).2 = .orderedList ∨
        (matchesListItem line true).2 = .orderedListFancy) →
      (openStartAndType line (matchesListItem line true).1 (matchesListItem line true).2).map
          Prod.fst ≠ some 1 →
      fancyListOpen ctx line = none) ∧
    (((matchesListItem line true).1.m4 < 0 ∨
        isBlank (sliceBytes line (matchesListItem line true).1.m4
          (matchesListItem line true).1.m5) = true) →
      fancyListOpen ctx line = none) ∧
    ((matchesListItem line true).2 = .bulletList →
      ¬((matchesListItem line true).1.m4 < 0 ∨
        isBlank (sliceBytes line (matchesListItem line true).1.m4
          (matchesListItem line true).1.m5) = true) →
      fancyListOpen ctx line ≠ none) := by
  obtain ⟨cl, cs, cp, csp, cn⟩ := ctx
  simp only at hl hs hp hsp
  subst hl hs hp hsp
  rcases hm : matchesListItem line true with ⟨m, typ⟩
  refine ⟨?_, ?_, ?_⟩
  · intro hn htyp hstart
    simp only at hn
    subst hn
    dsimp only at htyp hstart
    simp only [fancyListOpen, hm]
    cases hOT : openStartAndType line m typ with
    | none => simp [hOT]
    | some p =>
      obtain ⟨st, ft⟩ := p
      rw [hOT] at hstart
      simp only [Option.map_some', ne_eq, Option.some.injEq] at hstart
      rcases htyp with h | h <;> subst h <;> simp [hOT, hstart]
  · intro hblank
    dsimp only at hblank
    simp only [fancyListOpen, hm]
    by_cases hnl : typ = ListItemType.notList
    · simp [hnl]
    · cases hOT : openStartAndType line m typ with
      | none => simp [hOT, hnl]
      | some p =>
        obtain ⟨st, ft⟩ := p
        by_cases hguard : cn = false ∧
            ((typ = ListItemType.orderedList ∧ st ≠ 1) ∨
              (typ = ListItemType.orderedListFancy ∧ st ≠ 1))
        · simp [hOT, hnl, hguard]
        · simp [hOT, hnl, hguard, hblank]
  · intro hb hnblank
    dsimp only at hb hnblank
    subst hb
    simp only [fancyListOpen, hm]
    simp [openStartAndType, hnblank]

theorem expectedTypeFor_i (ct : List Nat) :
    expectedTypeFor ct [105] .orderedListFancy = (if ct = [97] then ct else [105]) := by
  unfold expectedTypeFor
  simp

theorem expectedTypeFor_I (ct : List Nat) :
    expectedTypeFor ct [73] .orderedListFancy = (if ct = [65] then ct else [73]) := by
  unfold expectedTypeFor
  simp

/-- C2: a continuation line whose marker token is `#` (terminated by `.` or
`)`, matching the container's marker byte) never triggers a type-change
close: the List-Continuation decision skips the type comparison, returns
continue, and leaves the stored `type` attribute unchanged, for every
current type tag. -/
theorem continue_hash_inherits (st : ContState) (line : List Nat) (m : ListMatch)
    (typ : ListItemType)
    (hm : matchesListItem line false = (m, typ))
    (htyp : typ = .orderedList ∨ typ = .orderedListFancy)
    (hnb : isBlank line = false)
    (hind : (indentWidth line st.lineOffset).1 < st.lastOffset ∨ st.lastChildCount = 0)
    (h4 : (indentWidth line st.lineOffset).1 < 4)
    (hm14 : m.m1 - (st.lastOffset : Int) < 4)
    (hmk : line.getD (m.m3 - 1).toNat 0 = st.listMarker)
    (hord : listIsOrderedB st.listMarker = true)
    (hslice : sliceBytes line m.m2 (m.m3 - 1) = [35]) :
    fancyListContinue st line = (.continueHasChildren, st) ∧
    (fancyListContinue st line).2.typeAttr = st.typeAttr := by
  have hnn : typ ≠ ListItemType.notList := by rcases htyp with h | h <;> simp [h]
  have hcc : listCanContinue st.listMarker (line.getD (m.m3 - 1).toNat 0)
      (decide (typ = .orderedList ∨ typ = .orderedListFancy)) = true := by
    unfold listCanContinue
    rw [hmk, hord]
    simp [htyp]
  have hmain : fancyListContinue st line = (.continueHasChildren, st) := by
    simp only [fancyListContinue, hm, hslice]
    rw [if_neg (by rw [hnb]; simp)]
    rw [if_pos hind]
    rw [if_pos ⟨h4, hnn, hm14⟩]
    rw [if_neg (by rw [hcc]; simp)]
    rw [if_pos htyp]
    rw [if_neg (by decide : ¬ ([35] : List Nat) ≠ [35])]
  exact ⟨hmain, by rw [hmain]⟩

/-- C1: for an open ordered-list container and a continuation line whose
marker token is exactly `i` (resp. `I`): if the current type tag is the
same-case alphabetic tag `a` (resp. `A`) the decision keeps the current type
and continues; the same happens when the current tag is already the roman
tag `i` (resp. `I`); in every other situation the expected type becomes the
roman tag of the token's case and the container closes, exactly because that
expected type differs from the current type.  So `a.` then `i.` continues a
single lowercase-alphabetic list, while `1.` then `i.` closes the numeric
list.  The returned state always carries the input type attribute. -/
theorem continue_iI_disambiguation (st : ContState) (line : List Nat) (m : ListMatch)
    (hm : matchesListItem line false = (m, .orderedListFancy))
    (hnb : isBlank line = false)
    (hind : (indentWidth line st.lineOffset).1 < st.lastOffset ∨ st.lastChildCount = 0)
    (h4 : (indentWidth line st.lineOffset).1 < 4)
    (hm14 : m.m1 - (st.lastOffset : Int) < 4)
    (hmk : line.getD (m.m3 - 1).toNat 0 = st.listMarker)
    (hord : listIsOrderedB st.listMarker = true) :
    (sliceBytes line m.m2 (m.m3 - 1) = [105] →
      fancyListContinue st line =
        (if st.typeAttr.getD [49] = [97] ∨ st.typeAttr.getD [49] = [105] then
          (.continueHasChildren, st)
        else (.close, st))) ∧
    (sliceBytes line m.m2 (m.m3 - 1) = [73] →
      fancyListContinue st line =
        (if st.typeAttr.getD [49] = [65] ∨ st.typeAttr.getD [49] = [73] then
          (.continueHasChildren, st)
        else (.close, st))) := by
  constructor
  · intro hslice
    simp only [fancyListContinue, hm, hslice]
    rw [if_neg (by rw [hnb]; simp)]
    rw [if_pos hind]
    rw [if_pos ⟨h4, by simp, hm14⟩]
    rw [if_neg (by unfold listCanContinue; rw [hmk, hord]; simp)]
    rw [if_pos (Or.inr trivial)]
    rw [if_pos (by decide : ([105] : List Nat) ≠ [35])]
    rw [expectedTypeFor_i]
    by_cases h97 : st.typeAttr.getD [49] = [97]
    · simp [h97]
    · by_cases h105 : st.typeAttr.getD [49] = [105]
      · simp [h97, h105]
      · simp [h97, h105, Ne.symm h105]
  · intro hslice
    simp only [fancyListContinue, hm, hslice]
    rw [if_neg (by rw [hnb]; simp)]
    rw [if_pos hind]
    rw [if_pos ⟨h4, by simp, hm14⟩]
    rw [if_neg (by unfold listCanContinue; rw [hmk, hord]; simp)]
    rw [if_pos (Or.inr trivial)]
    rw [if_pos (by decide : ([73] : List Nat) ≠ [35])]
    rw [expectedTypeFor_I]
    by_cases h65 : st.typeAttr.getD [49] = [65]
    · simp [h65]
    · by_cases h73 : st.typeAttr.getD [49] = [73]
      · simp [h65, h73]
      · simp [h65, h73, Ne.symm h73]

/-- C9: on each accepted item open with an ordered or fancy marker, the
item's recorded `value` attribute is the decimal string of
`container.childCount + container.start` — the 0-based count of items
already appended plus the start, so the first item records exactly
`container.start` and successive items increase by one. -/
theorem item_value_attribute (ctx : ItemCtx) (line : List Nat) (m : ListMatch)
    (typ : ListItemType)
    (hp : ctx.parentIsList = true)
    (hm : matchesListItem line false = (m, typ))
    (htyp : typ = .orderedList ∨ typ = .orderedListFancy)
    (hoff : m.m1 - (ctx.listLastOffset : Int) ≤ 3) :
    (fancyListItemOpen ctx line).map ListItemNode.valueAttr =
      some (some (itoa ((ctx.listChildCount : Int) + ctx.listStart))) := by
  have hnn : typ ≠ ListItemType.notList := by rcases htyp with h | h <;> simp [h]
  simp only [fancyListItemOpen, hm, hp]
  rw [if_neg (by simp)]
  rw [if_neg hnn]
  rw [if_neg (by omega)]
  rw [if_pos htyp]
  by_cases hb : m.m4 < 0 ∨ isBlank (sliceBytes line m.m4 m.m5) = true
  · rw [if_pos hb]; rfl
  · rw [if_neg hb]; rfl

theorem render_ordered_tag_cases (n : Int) :
    renderListOpenTag true [] n =
      wstr "<ol class=\"fancy fl-num\" type=\"1\" start=\"" ++ itoa n ++ wstr "\"" ++
        wstr ">\n" ∧
    renderListOpenTag true [("type", "a")] n =
      wstr "<ol class=\"fancy fl-lcalpha\" type=\"a\" start=\"" ++ itoa n ++ wstr "\"" ++
        wstr ">\n" ∧
    renderListOpenTag true [("type", "A")] n =
      wstr "<ol class=\"fancy fl-ucalpha\" type=\"A\" start=\"" ++ itoa n ++ wstr "\"" ++
        wstr ">\n" ∧
    renderListOpenTag true [("type", "i")] n =
      wstr "<ol class=\"fancy fl-lcroman\" type=\"i\" start=\"" ++ itoa n ++ wstr "\"" ++
        wstr ">\n" ∧
    renderListOpenTag true [("type", "I")] n =
      wstr "<ol class=\"fancy fl-ucroman\" type=\"I\" start=\"" ++ itoa n ++ wstr "\"" ++
        wstr ">\n" := by
  by_cases h1 : n = 1
  · subst h1
    refine ⟨?_, ?_, ?_, ?_, ?_⟩ <;> rfl
  · refine ⟨?_, ?_, ?_, ?_, ?_⟩
    · simp only [renderListOpenTag, attributeString]
      rw [if_pos h1]
      rw [show (List.filterMap
          (fun a => if a.1 ≠ "class" ∧ a.1 ≠ "type" then
            some (wstr " " ++ wstr a.1 ++ wstr "=\"" ++ wstr a.2 ++ wstr "\"") else none)
          ([] : List (String × String))).flatten = ([] : List Char) from rfl]
      rw [List.append_nil]
      rfl
    · simp only [renderListOpenTag, attributeString]
      rw [if_pos h1]
      rw [show (List.filterMap
          (fun a => if a.1 ≠ "class" ∧ a.1 ≠ "type" then
            some (wstr " " ++ wstr a.1 ++ wstr "=\"" ++ wstr a.2 ++ wstr "\"") else none)
          ([("type", "a")] : List (String × String))).flatten = ([] : List Char) from rfl]
      rw [List.append_nil]
      rfl
    · simp only [renderListOpenTag, attributeString]
      rw [if_pos h1]
      rw [show (List.filterMap
          (fun a => if a.1 ≠ "class" ∧ a.1 ≠ "type" then
            some (wstr " " ++ wstr a.1 ++ wstr "=\"" ++ wstr a.2 ++ wstr "\"") else none)
          ([("type", "A")] : List (String × String))).flatten = ([] : List Char) from rfl]
      rw [List.append_nil]
      rfl
    · simp only [renderListOpenTag, attributeString]
      rw [if_pos h1]
      rw [show (List.filterMap
          (fun a => if a.1 ≠ "class" ∧ a.1 ≠ "type" then
            some (wstr " " ++ wstr a.1 ++ wstr "=\"" ++ wstr a.2 ++ wstr "\"") else none)
          ([("type", "i")] : List (String × String))).flatten = ([] : List Char) from rfl]
      rw [List.append_nil]
      rfl
    · simp only [renderListOpenTag, attributeString]
      rw [if_pos h1]
      rw [show (List.filterMap
          (fun a => if a.1 ≠ "class" ∧ a.1 ≠ "type" then
            some (wstr " " ++ wstr a.1 ++ wstr "=\"" ++ wstr a.2 ++ wstr "\"") else none)
          ([("type", "I")] : List (String × String))).flatten = ([] : List Char) from rfl]
      rw [List.append_nil]
      rfl

/-- Counterexample to C5 as stated: the token "ia" starts with `i`, its roman
decode fails, and its alphabetic value is 235 (not 0) — yet List-Open rejects
the line "ia. x" instead of opening an alphabetic list. -/
theorem open_ia_rejected_cex :
    fancyListOpen ⟨false, false, false, false, false⟩ [105, 97, 46, 32, 120] = none ∧
    (romanToNumber [105, 97]).2 = false ∧ alphabeticToNumber [105, 97] = 235 := by
  decide

/-- Application of `open_fancy_iI_no_fallback` at the concrete tokens "ia"
(first byte i, roman decode fails, Open rejects) and "b" (alphabetic,
value 2, Open accepts). -/
theorem open_fancy_iI_no_fallback_app :
    fancyListOpen ⟨false, false, false, false, false⟩ ([105, 97] ++ [46, 32, 120]) = none ∧
    fancyListOpen ⟨false, false, false, false, false⟩ ([98] ++ [46, 32, 120]) =
      some ⟨46, 2, some [97]⟩ := by
  constructor
  · exact (open_fancy_iI_no_fallback [105, 97] (by decide) (by decide) (by decide)).1
      (by decide) (by decide)
  · exact ((open_fancy_iI_no_fallback [98] (by decide) (by decide) (by decide)).2
      (by decide)).trans (by decide)

/-- C6: for every digit string `d` with 1 ≤ len(d) ≤ 9, scanning the line
`d . space x` yields kind OrderedPlain with the marker span covering exactly
the digits plus terminator, and List-Open creates a numeric container whose
start is the decimal value of `d` (no `type` attribute); a run of 10
consecutive digits invalidates the whole match, so numeric start values are
bounded by 999999999. -/
theorem digit_scan_and_open :
    (∀ d : List Nat, (∀ b ∈ d, isNumericByte b = true) → 1 ≤ d.length → d.length ≤ 9 →
      parseListItem (d ++ [46, 32, 120]) =
        (⟨0, 0, 0, (d.length : Int) + 1, (d.length : Int) + 1, (d.length : Int) + 3⟩,
          .orderedList) ∧
      fancyListOpen ⟨false, false, false, false, false⟩ (d ++ [46, 32, 120]) =
        some ⟨46, atoiDigits d, none⟩) ∧
    (∀ d : List Nat, (∀ b ∈ d, isNumericByte b = true) → d.length = 10 →
      (parseListItem (d ++ [46, 32, 120])).2 = .notList) :=
  ⟨fun d hd h1 h9 => ⟨parse_digit_line d hd h1 h9, open_digit_line d hd h1 h9⟩,
    fun d hd h10 => parse_ten_digit_line d hd h10⟩

/-- Application of `digit_scan_and_open` at the digit string "42": List-Open
creates a numeric list with start 42. -/
theorem digit_scan_and_open_app :
    fancyListOpen ⟨false, false, false, false, false⟩ ([52, 50] ++ [46, 32, 120]) =
      some ⟨46, 42, none⟩ :=
  ((digit_scan_and_open.1 [52, 50] (by decide) (by decide) (by decide)).2).trans (by decide)

/-- C8: the renderer emits, for every finalized ordered list container, an
opening tag of exactly the form
`<ol class="fancy fl-SUFFIX" type="SYM" start="N">` with suffix/symbol
determined by the stored type tag (absent tag ⇒ `fl-num`/`1`), emitting
`start="1"` even when the start is 1 (instantiated in the `n = 1` case of
the proof); the item renderer emits `<li>` with no `value` attribute for
every item, ignoring the node's attribute list — even though the item
parser stored a `value` attribute on the node (last conjunct). -/
theorem render_tags_spec :
    (∀ n : Int,
      renderListOpenTag true [] n =
        wstr "<ol class=\"fancy fl-num\" type=\"1\" start=\"" ++ itoa n ++ wstr "\"" ++
          wstr ">\n" ∧
      renderListOpenTag true [("type", "a")] n =
        wstr "<ol class=\"fancy fl-lcalpha\" type=\"a\" start=\"" ++ itoa n ++ wstr "\"" ++
          wstr ">\n" ∧
      renderListOpenTag true [("type", "A")] n =
        wstr "<ol class=\"fancy fl-ucalpha\" type=\"A\" start=\"" ++ itoa n ++ wstr "\"" ++
          wstr ">\n" ∧
      renderListOpenTag true [("type", "i")] n =
        wstr "<ol class=\"fancy fl-lcroman\" type=\"i\" start=\"" ++ itoa n ++ wstr "\"" ++
          wstr ">\n" ∧
      renderListOpenTag true [("type", "I")] n =
        wstr "<ol class=\"fancy fl-ucroman\" type=\"I\" start=\"" ++ itoa n ++ wstr "\"" ++
          wstr ">\n") ∧
    (∀ (attrs : List (String × String)) (fc : Option Bool),
      renderListItemOpenTag attrs fc =
        wstr "<li>" ++
          (match fc with
          | none => ([] : List Char)
          | some b => if b = true then [] else wstr "\n")) ∧
    (fancyListItemOpen ⟨true, 1, 0, 0⟩ [49, 46, 32, 120]).map ListItemNode.valueAttr =
      some (some (itoa 1)) := by
  refine ⟨render_ordered_tag_cases, ?_, by decide⟩
  intro attrs fc
  cases fc with
  | none => rfl
  | some b => cases b <;> rfl

/-- Application of C1 at concrete states: `i. x` continuing a
lowercase-alphabetic list continues it, while `i. x` continuing a plain
numeric list (no stored type attribute) closes it. -/
theorem continue_iI_disambiguation_app :
    fancyListContinue ⟨some [97], 46, 1, 3, false, 0⟩ [105, 46, 32, 120] =
      (.continueHasChildren, ⟨some [97], 46, 1, 3, false, 0⟩) ∧
    fancyListContinue ⟨none, 46, 1, 3, false, 0⟩ [105, 46, 32, 120] =
      (.close, ⟨none, 46, 1, 3, false, 0⟩) := by
  constructor
  · exact ((continue_iI_disambiguation ⟨some [97], 46, 1, 3, false, 0⟩ [105, 46, 32, 120]
      ⟨0, 0, 0, 2, 2, 4⟩ (by decide) (by decide) (by decide) (by decide) (by decide)
      (by decide) (by decide)).1 (by decide)).trans (by decide)
  · exact ((continue_iI_disambiguation ⟨none, 46, 1, 3, false, 0⟩ [105, 46, 32, 120]
      ⟨0, 0, 0, 2, 2, 4⟩ (by decide) (by decide) (by decide) (by decide) (by decide)
      (by decide) (by decide)).1 (by decide)).trans (by decide)

/-- Application of C2 at a concrete state: `#. x` continuing an
uppercase-alphabetic list continues it with the type attribute unchanged. -/
theorem continue_hash_inherits_app :
    fancyListContinue ⟨some [65], 46, 1, 3, false, 0⟩ [35, 46, 32, 120] =
      (.continueHasChildren, ⟨some [65], 46, 1, 3, false, 0⟩) :=
  (continue_hash_inherits ⟨some [65], 46, 1, 3, false, 0⟩ [35, 46, 32, 120]
    ⟨0, 0, 0, 2, 2, 4⟩ .orderedListFancy (by decide) (Or.inr rfl) (by decide) (by decide)
    (by decide) (by decide) (by decide) (by decide) (by decide)).1

/-- Application of C7 at a concrete context: `2. x` immediately after a
paragraph at top level does not open a list (start 2 ≠ 1). -/
theorem paragraph_interruption_guard_app :
    fancyListOpen ⟨false, false, true, true, false⟩ [50, 46, 32, 120] = none :=
  (paragraph_interruption_guard ⟨false, false, true, true, false⟩ [50, 46, 32, 120]
    rfl rfl rfl rfl).1 rfl (by decide) (by decide)

/-- Application of C9 at a concrete state: the third item (two children
already appended) of a list with start 5 records value "7". -/
theorem item_value_attribute_app :
    (fancyListItemOpen ⟨true, 5, 2, 0⟩ [49, 46, 32, 120]).map ListItemNode.valueAttr =
      some (some (itoa 7)) :=
  (item_value_attribute ⟨true, 5, 2, 0⟩ [49, 46, 32, 120] ⟨0, 0, 0, 2, 2, 4⟩
    .orderedList rfl (by decide) (Or.inl rfl) (by decide)).trans (by decide)


/-- Application of C8 at start value 1: the tag carries `start="1"` even for
a list starting at 1, and the item tag for a stored-value item is bare
`<li>`. -/
theorem render_tags_spec_app :
    renderListOpenTag true [("type", "a")] 1 =
      wstr "<ol class=\"fancy fl-lcalpha\" type=\"a\" start=\"" ++ itoa 1 ++ wstr "\"" ++
        wstr ">\n" ∧
    renderListItemOpenTag [("value", "3")] (some true) = wstr "<li>" :=
  ⟨(render_tags_spec.1 1).2.1, (render_tags_spec.2.1 [("value", "3")] (some true)).trans
    (by decide)⟩


end FancyLists
